import Mathlib

/-!
# Verification of the hatcog outbound-connection layer

Shallow embedding of the two connection-layer source files of the
repository: `src/unnamed/part_000` (the newer `External` /
`ExternalManager` variant) and `src/hatcogd/external.go` (the older
`External` variant).  Go strings are modelled as `List Char`, byte
slices as `List (Fin 256)`, and the effects of each operation (socket
writes, channel pushes, log records) are returned as explicit values.
Operations that can panic in Go return `Option`.
-/

/-- A Go string, modelled as its list of characters. -/
abbrev Str := List Char

/-- One byte of a Go byte slice. -/
abbrev Byte := Fin 256

/-- The structured line produced by the external parser (`ParseLine`).
Only the fields this layer inspects are modelled: `Command` and `User`. -/
structure Line where
  command : Str
  user : Str
deriving DecidableEq

/-! ## UTF-8 validity and decoding

`toUnicode` (part_000 lines 208-223) calls Go's `utf8.Valid` and the
`string(data)` conversion.  Both stdlib pieces are embedded here:
`utf8ValidF` follows `utf8.Valid`'s per-sequence acceptance ranges and
`utf8DecodeF` is an independent strict UTF-8 decoder, so that the fact
that the conversion of a *valid* byte slice is exactly its UTF-8
decoding is proved, not assumed.  Both recursions are fuelled; one byte
is consumed per unit of fuel, so `l.length` fuel always suffices. -/

/-- A UTF-8 continuation byte: `0x80 ≤ b ≤ 0xBF`. -/
abbrev isCont (b : Byte) : Prop := 0x80 ≤ b.val ∧ b.val ≤ 0xBF

/-- The accepted range of the second byte of a multi-byte sequence,
given its first byte (Go `utf8.acceptRanges`): `E0` needs `A0..BF`,
`ED` needs `80..9F` (no surrogates), `F0` needs `90..BF`, `F4` needs
`80..8F` (no code points above `U+10FFFF`); all other lead bytes accept
any continuation byte. -/
abbrev acceptRange (b b2 : Byte) : Prop :=
  if b.val = 0xE0 then 0xA0 ≤ b2.val ∧ b2.val ≤ 0xBF
  else if b.val = 0xED then 0x80 ≤ b2.val ∧ b2.val ≤ 0x9F
  else if b.val = 0xF0 then 0x90 ≤ b2.val ∧ b2.val ≤ 0xBF
  else if b.val = 0xF4 then 0x80 ≤ b2.val ∧ b2.val ≤ 0x8F
  else isCont b2

/-- Go `utf8.Valid`, fuelled: whether the byte slice is wholly made of
well-formed, shortest-form UTF-8 sequences encoding scalar values. -/
def utf8ValidF : Nat → List Byte → Bool
  | _, [] => true
  | 0, _ :: _ => false
  | fuel + 1, b :: rest =>
    if b.val < 0x80 then utf8ValidF fuel rest
    else if 0xC2 ≤ b.val ∧ b.val ≤ 0xDF then
      match rest with
      | b2 :: rest2 => if isCont b2 then utf8ValidF fuel rest2 else false
      | [] => false
    else if 0xE0 ≤ b.val ∧ b.val ≤ 0xEF then
      match rest with
      | b2 :: b3 :: rest3 =>
        if acceptRange b b2 ∧ isCont b3 then utf8ValidF fuel rest3 else false
      | _ => false
    else if 0xF0 ≤ b.val ∧ b.val ≤ 0xF4 then
      match rest with
      | b2 :: b3 :: b4 :: rest4 =>
        if acceptRange b b2 ∧ isCont b3 ∧ isCont b4 then utf8ValidF fuel rest4
        else false
      | _ => false
    else false

/-- Strict UTF-8 decoding, fuelled: the list of code points encoded by
the byte slice, or `none` if it is not valid UTF-8. -/
def utf8DecodeF : Nat → List Byte → Option (List Nat)
  | _, [] => some []
  | 0, _ :: _ => none
  | fuel + 1, b :: rest =>
    if b.val < 0x80 then (utf8DecodeF fuel rest).map (b.val :: ·)
    else if 0xC2 ≤ b.val ∧ b.val ≤ 0xDF then
      match rest with
      | b2 :: rest2 =>
        if isCont b2 then
          (utf8DecodeF fuel rest2).map
            (((b.val - 0xC0) * 0x40 + (b2.val - 0x80)) :: ·)
        else none
      | [] => none
    else if 0xE0 ≤ b.val ∧ b.val ≤ 0xEF then
      match rest with
      | b2 :: b3 :: rest3 =>
        if acceptRange b b2 ∧ isCont b3 then
          (utf8DecodeF fuel rest3).map
            (((b.val - 0xE0) * 0x1000 + (b2.val - 0x80) * 0x40 +
              (b3.val - 0x80)) :: ·)
        else none
      | _ => none
    else if 0xF0 ≤ b.val ∧ b.val ≤ 0xF4 then
      match rest with
      | b2 :: b3 :: b4 :: rest4 =>
        if acceptRange b b2 ∧ isCont b3 ∧ isCont b4 then
          (utf8DecodeF fuel rest4).map
            (((b.val - 0xF0) * 0x40000 + (b2.val - 0x80) * 0x1000 +
              (b3.val - 0x80) * 0x40 + (b4.val - 0x80)) :: ·)
        else none
      | _ => none
    else none

/-- `utf8.Valid data`. -/
def utf8Valid (l : List Byte) : Bool := utf8ValidF l.length l

/-- The UTF-8 decoding of `data` (`none` when `data` is not valid UTF-8). -/
def utf8Decode (l : List Byte) : Option (List Nat) := utf8DecodeF l.length l

/-- part_000 lines 208-223, `toUnicode`: if the bytes are valid UTF-8
the Go conversion `string(data)` yields their UTF-8 decoding; otherwise
each byte becomes the code point of the same numeric value
(ISO-8859-1 fallback, `runes[index] = rune(val)`).  The `getD` default
is unreachable: a valid slice always decodes (proved below). -/
def toUnicode (data : List Byte) : List Nat :=
  if utf8Valid data then (utf8Decode data).getD (data.map Fin.val)
  else data.map Fin.val

theorem utf8ValidF_decodeF (fuel : Nat) :
    ∀ l : List Byte, utf8ValidF fuel l = true →
      (utf8DecodeF fuel l).isSome = true := by
  induction fuel with
  | zero =>
    intro l h
    cases l with
    | nil => simp [utf8DecodeF]
    | cons b rest => simp [utf8ValidF] at h
  | succ f ih =>
    intro l h
    cases l with
    | nil => simp [utf8DecodeF]
    | cons b rest =>
      simp only [utf8ValidF] at h
      simp only [utf8DecodeF]
      by_cases h1 : b.val < 0x80
      · rw [if_pos h1] at h ⊢
        have hs := ih rest h
        cases hx : utf8DecodeF f rest with
        | none => rw [hx] at hs; simp at hs
        | some cps => simp [hx]
      · rw [if_neg h1] at h ⊢
        by_cases h2 : 0xC2 ≤ b.val ∧ b.val ≤ 0xDF
        · rw [if_pos h2] at h ⊢
          cases rest with
          | nil => simp at h
          | cons b2 rest2 =>
            simp only at h ⊢
            by_cases hc : isCont b2
            · rw [if_pos hc] at h ⊢
              have hs := ih rest2 h
              cases hx : utf8DecodeF f rest2 with
              | none => rw [hx] at hs; simp at hs
              | some cps => simp [hx]
            · rw [if_neg hc] at h; simp at h
        · rw [if_neg h2] at h ⊢
          by_cases h3 : 0xE0 ≤ b.val ∧ b.val ≤ 0xEF
          · rw [if_pos h3] at h ⊢
            cases rest with
            | nil => simp at h
            | cons b2 rest2 =>
              cases rest2 with
              | nil => simp at h
              | cons b3 rest3 =>
                simp only at h ⊢
                by_cases hc : acceptRange b b2 ∧ isCont b3
                · rw [if_pos hc] at h ⊢
                  have hs := ih rest3 h
                  cases hx : utf8DecodeF f rest3 with
                  | none => rw [hx] at hs; simp at hs
                  | some cps => simp [hx]
                · rw [if_neg hc] at h; simp at h
          · rw [if_neg h3] at h ⊢
            by_cases h4 : 0xF0 ≤ b.val ∧ b.val ≤ 0xF4
            · rw [if_pos h4] at h ⊢
              cases rest with
              | nil => simp at h
              | cons b2 rest2 =>
                cases rest2 with
                | nil => simp at h
                | cons b3 rest3 =>
                  cases rest3 with
                  | nil => simp at h
                  | cons b4 rest4 =>
                    simp only at h ⊢
                    by_cases hc : acceptRange b b2 ∧ isCont b3 ∧ isCont b4
                    · rw [if_pos hc] at h ⊢
                      have hs := ih rest4 h
                      cases hx : utf8DecodeF f rest4 with
                      | none => rw [hx] at hs; simp at hs
                      | some cps => simp [hx]
                    · rw [if_neg hc] at h; simp at h
            · rw [if_neg h4] at h; simp at h

/-- C1: for every byte sequence that is valid UTF-8, `toUnicode`
returns exactly the UTF-8 decoding of the bytes; for every byte
sequence that is not valid UTF-8, it never fails and returns one code
point per input byte, the i-th code point being the numeric value
(0-255) of the i-th input byte. -/
theorem toUnicode_utf8_spec (data : List Byte) :
    (utf8Valid data = true → utf8Decode data = some (toUnicode data)) ∧
    (utf8Valid data = false →
      (toUnicode data).length = data.length ∧
      ∀ i : Nat, (toUnicode data)[i]? = data[i]?.map Fin.val) := by
  constructor
  · intro h
    have hs : (utf8Decode data).isSome = true :=
      utf8ValidF_decodeF data.length data h
    unfold toUnicode
    rw [if_pos h]
    cases hx : utf8Decode data with
    | none => rw [hx] at hs; simp at hs
    | some cps => simp [hx]
  · intro h
    unfold toUnicode
    rw [if_neg (by simp [h])]
    refine ⟨by simp, ?_⟩
    intro i
    simp

/-- Witness for C1 at concrete inputs: the single byte `0x41` is valid
UTF-8 and decodes to `[0x41]`; the single byte `0xFF` is invalid and is
mapped to the single code point `255`. -/
theorem toUnicode_utf8_spec_witness :
    utf8Decode [(0x41 : Byte)] = some (toUnicode [(0x41 : Byte)]) ∧
    (toUnicode [(0xFF : Byte)]).length = ([(0xFF : Byte)] : List Byte).length ∧
    (toUnicode [(0xFF : Byte)])[0]? =
      ([(0xFF : Byte)] : List Byte)[0]?.map Fin.val :=
  ⟨(toUnicode_utf8_spec [(0x41 : Byte)]).1 (by decide),
   ((toUnicode_utf8_spec [(0xFF : Byte)]).2 (by decide)).1,
   ((toUnicode_utf8_spec [(0xFF : Byte)]).2 (by decide)).2 0⟩

/-! ## Protocol reactions (`act`)

part_000 lines 226-237 and hatcogd/external.go lines 145-156.  `act`
inspects the parsed line and may write raw replies to the socket before
pushing the line onto the shared `fromServer` channel.  The model
returns the pair (raw sends, lines pushed onto the channel).  `VERSION`
is the configured client version string, a constant defined outside
these files, so it is a parameter here. -/

/-- part_000 `act`: reply to `PING` with `PONG goirc`, reply to
`VERSION` with a CTCP NOTICE, and in every case push the line onto
`fromServer`. -/
def act (version : Str) (line : Line) : List Str × List Line :=
  if line.command = "PING".toList then
    (["PONG goirc".toList], [line])
  else if line.command = "VERSION".toList then
    (["NOTICE ".toList ++ line.user ++ " :\x01VERSION ".toList ++ version ++
        "\x01\n".toList], [line])
  else ([], [line])

/-- hatcogd `act`: same replies, but the `PING` branch ends in
`return`, so a `PING` line is never pushed onto `fromServer`. -/
def actH (version : Str) (line : Line) : List Str × List Line :=
  if line.command = "PING".toList then
    (["PONG goirc".toList], [])
  else if line.command = "VERSION".toList then
    (["NOTICE ".toList ++ line.user ++ " :\x01VERSION ".toList ++ version ++
        "\x01\n".toList], [line])
  else ([], [line])

/-- A concrete parsed `PING` line. -/
def pingLine : Line := ⟨"PING".toList, "server".toList⟩

/-- C2 counterexample: in the hatcogd variant of `act` (external.go
lines 147-149, `SendRaw("PONG goirc"); return`), a `PING` line is *not*
pushed onto the shared outbound channel, contrary to the claim that the
line is still forwarded afterward. -/
theorem act_ping_forward_cx :
    pingLine ∉ (actH "hatcog".toList pingLine).2 := by decide

/-- C2 (amended): in the part_000 variant, a parsed `PING` line
produces exactly one raw send, `PONG goirc`, and the line is still
pushed onto the shared outbound channel; in the hatcogd variant the
same single `PONG goirc` reply is sent but the line is not forwarded
(the `PING` branch returns early). -/
theorem act_ping_amended (version : Str) (line : Line)
    (h : line.command = "PING".toList) :
    act version line = (["PONG goirc".toList], [line]) ∧
    actH version line = (["PONG goirc".toList], []) := by
  constructor <;> · simp only [act, actH]; rw [h]; simp

/-- Witness for C2 at a concrete `PING` line. -/
theorem act_ping_amended_witness :
    act "hatcog".toList pingLine = (["PONG goirc".toList], [pingLine]) ∧
    actH "hatcog".toList pingLine = (["PONG goirc".toList], []) :=
  act_ping_amended "hatcog".toList pingLine (by decide)

/-- A concrete parsed CTCP `VERSION` request from user `alice`. -/
def versionLine : Line := ⟨"VERSION".toList, "alice".toList⟩

/-- C8: in both variants, a parsed `VERSION` line produces exactly one
raw send, a CTCP NOTICE addressed to the line's originating user whose
payload frames the configured client version string between `\x01`
delimiters, and the line is still pushed onto the outbound channel. -/
theorem act_version_replies (version : Str) (line : Line)
    (h : line.command = "VERSION".toList) :
    act version line =
      (["NOTICE ".toList ++ line.user ++ " :\x01VERSION ".toList ++ version ++
          "\x01\n".toList], [line]) ∧
    actH version line =
      (["NOTICE ".toList ++ line.user ++ " :\x01VERSION ".toList ++ version ++
          "\x01\n".toList], [line]) := by
  constructor <;> · simp only [act, actH]; rw [h]; simp

/-- Witness for C8 at a concrete `VERSION` line. -/
theorem act_version_replies_witness :
    act "hatcog 0.9".toList versionLine =
      (["NOTICE ".toList ++ versionLine.user ++ " :\x01VERSION ".toList ++
          "hatcog 0.9".toList ++ "\x01\n".toList], [versionLine]) ∧
    actH "hatcog 0.9".toList versionLine =
      (["NOTICE ".toList ++ versionLine.user ++ " :\x01VERSION ".toList ++
          "hatcog 0.9".toList ++ "\x01\n".toList], [versionLine]) :=
  act_version_replies "hatcog 0.9".toList versionLine (by decide)

/-! ## Slash commands (`doCommand`)

part_000 lines 145-157 and hatcogd/external.go lines 104-108.  Both
start with `content = content[1:]`, which panics (`slice bounds out of
range`) when `content` is empty, so the models return `Option`:
`none` models the panic, `some sent` the raw line handed to `SendRaw`. -/

/-- Go `strings.SplitN(s, sep, 2)` for a one-character separator:
either `[s]` (no separator present) or the parts before and after the
first separator. -/
def goSplitN2 (sep : Char) (s : Str) : List Str :=
  match s.findIdx? (· == sep) with
  | none => [s]
  | some i => [s.take i, s.drop (i + 1)]

/-- Go `strings.Replace(s, old, new, 1)`: replace the first occurrence
of `old` in `s` by `new` (for empty `old`, insert `new` in front). -/
def goReplace1 (old new : Str) : Str → Str
  | [] => if old = [] then new else []
  | c :: rest =>
    if old.isPrefixOf (c :: rest) then new ++ (c :: rest).drop old.length
    else c :: goReplace1 old new rest

/-- part_000 `doCommand`: strip the first character, take the first
space-separated token of the remainder as the command, rewrite a
leading `msg` to `privmsg` (via `strings.Replace(..., 1)`), and send
the result as one raw line. -/
def doCommand (content : Str) : Option Str :=
  match content with
  | [] => none
  | _ :: rest =>
    let cmd := (goSplitN2 ' ' rest).headI
    some (if cmd = "msg".toList then goReplace1 "msg".toList "privmsg".toList rest
          else rest)

/-- hatcogd `doCommand`: strip the first character and send the
remainder as one raw line, with no alias rewriting. -/
def doCommandH (content : Str) : Option Str :=
  match content with
  | [] => none
  | _ :: rest => some rest

theorem goReplace1_front (old new t : Str) (h : old ≠ []) :
    goReplace1 old new (old ++ t) = new ++ t := by
  cases old with
  | nil => exact absurd rfl h
  | cons c os =>
    show goReplace1 (c :: os) new (c :: (os ++ t)) = new ++ t
    rw [goReplace1, if_pos]
    · show new ++ ((c :: os) ++ t).drop (c :: os).length = new ++ t
      rw [List.drop_left]
    · exact List.isPrefixOf_iff_prefix.mpr (List.prefix_append (c :: os) t)

theorem firstTok_msg_take3 (rest : Str)
    (h : (goSplitN2 ' ' rest).headI = "msg".toList) :
    rest.take 3 = "msg".toList := by
  unfold goSplitN2 at h
  cases hf : rest.findIdx? (· == ' ') with
  | none =>
    rw [hf] at h
    simp only [List.headI] at h
    rw [h]
    decide
  | some i =>
    rw [hf] at h
    simp only [List.headI] at h
    have hlen : min i rest.length = 3 := by
      have hl := congrArg List.length h
      simpa using hl
    have hi : 3 ≤ i := hlen ▸ Nat.min_le_left i rest.length
    have h33 : min 3 i = 3 := Nat.min_eq_left hi
    calc rest.take 3 = (rest.take i).take 3 := by rw [List.take_take, h33]
      _ = "msg".toList := by rw [h]; decide

/-- C3 counterexample: the hatcogd `doCommand` (external.go lines
104-108) performs no `msg` → `privmsg` rewrite: `/msg NickServ help`
sends the raw line `msg NickServ help`, not `privmsg NickServ help`. -/
theorem doCommand_msg_cx :
    doCommandH "/msg NickServ help".toList = some "msg NickServ help".toList ∧
    "msg NickServ help".toList ≠ "privmsg NickServ help".toList := by
  constructor <;> decide

/-- C3 (amended): in the part_000 variant, for an input starting with a
slash the leading slash is stripped and, when the first space-separated
token of the remainder is exactly `msg`, that token is rewritten to
`privmsg` before the result is sent as one raw line; in particular
`/msg NickServ help` sends `privmsg NickServ help`.  In the hatcogd
variant the slash is stripped and the remainder sent verbatim with no
rewrite. -/
theorem doCommand_msg_amended :
    (∀ rest : Str, (goSplitN2 ' ' rest).headI = "msg".toList →
      doCommand ('/' :: rest) = some ("privmsg".toList ++ rest.drop 3)) ∧
    doCommand "/msg NickServ help".toList = some "privmsg NickServ help".toList ∧
    (∀ rest : Str, doCommandH ('/' :: rest) = some rest) := by
  refine ⟨?_, by decide, fun rest => rfl⟩
  intro rest h
  have htake : rest.take 3 = "msg".toList := firstTok_msg_take3 rest h
  have hsplit : rest = "msg".toList ++ rest.drop 3 := by
    conv_lhs => rw [← List.take_append_drop 3 rest, htake]
  simp only [doCommand]
  rw [if_pos h]
  conv_lhs => rw [hsplit]
  rw [goReplace1_front _ _ _ (by decide)]

/-- Witness for C3's universally quantified part at a concrete input. -/
theorem doCommand_msg_amended_witness :
    doCommand ('/' :: "msg NickServ help".toList) =
      some ("privmsg".toList ++ "msg NickServ help".toList.drop 3) :=
  doCommand_msg_amended.1 "msg NickServ help".toList (by decide)

/-- C10: both `doCommand` variants complete (reach `SendRaw`) exactly
when the input is non-empty; on the empty string the initial
`content[1:]` slice is out of bounds (a Go panic, modelled `none`). -/
theorem doCommand_empty_unsafe (content : Str) :
    ((doCommand content).isSome = true ↔ content ≠ []) ∧
    ((doCommandH content).isSome = true ↔ content ≠ []) := by
  cases content <;> simp [doCommand, doCommandH]

/-! ## Connection construction: TLS or plain TCP (`NewExternal`)

part_000 lines 89-93 and hatcogd/external.go lines 42-46: both dial
with `tls.Dial` when `strings.HasSuffix(server, SSL_PORT)` holds, with
`SSL_PORT = "6697"`, and with `net.Dial` otherwise. -/

/-- The IRC-over-TLS port constant of both files. -/
def SSL_PORT : Str := "6697".toList

/-- Go `strings.HasSuffix(s, suffix)`:
`len(s) >= len(suffix) && s[len(s)-len(suffix):] == suffix`. -/
def goHasSuffix (s suf : Str) : Bool :=
  decide (suf.length ≤ s.length) && decide (s.drop (s.length - suf.length) = suf)

/-- Which kind of session `NewExternal` establishes. -/
inductive DialKind
  | tls
  | tcp
deriving DecidableEq

/-- The dial decision of `NewExternal` (both variants). -/
def dialKind (server : Str) : DialKind :=
  if goHasSuffix server SSL_PORT then DialKind.tls else DialKind.tcp

/-- Modelled from the spec side for comparison: the port of a
`host:port` address is the text after its last colon. -/
def portOf (addr : Str) : Str := (addr.reverse.takeWhile (· != ':')).reverse

theorem goHasSuffix_iff (s suf : Str) : goHasSuffix s suf = true ↔ suf <:+ s := by
  unfold goHasSuffix
  rw [Bool.and_eq_true, decide_eq_true_eq, decide_eq_true_eq,
    List.suffix_iff_eq_drop]
  constructor
  · rintro ⟨h1, h2⟩
    exact h2.symm
  · intro h
    refine ⟨?_, h.symm⟩
    have hl := congrArg List.length h
    simp only [List.length_drop] at hl
    omega

/-- C5 counterexample: the address `irc.example.com:16697` has port
`16697`, not `6697`, yet `NewExternal` establishes a TLS session for
it, because the suffix test `strings.HasSuffix(server, "6697")` looks
at the whole address string rather than at its port. -/
theorem dial_tls_port_cx :
    dialKind "irc.example.com:16697".toList = DialKind.tls ∧
    portOf "irc.example.com:16697".toList ≠ "6697".toList := by
  constructor <;> decide

/-- C5 (amended): a TLS session is established if and only if the
address string *ends with* the four characters `6697`; in particular
every address whose port is exactly 6697 gets TLS, but so does any
address merely ending in `6697` (e.g. port 16697). -/
theorem dial_tls_suffix_amended (addr host : Str) :
    (dialKind addr = DialKind.tls ↔ SSL_PORT.isSuffixOf addr = true) ∧
    dialKind (host ++ ':' :: SSL_PORT) = DialKind.tls := by
  constructor
  · have hk : dialKind addr = DialKind.tls ↔ goHasSuffix addr SSL_PORT = true := by
      unfold dialKind
      split_ifs with hg
      · simp [hg]
      · simp [hg]
    rw [hk, goHasSuffix_iff, List.isSuffixOf_iff_suffix]
  · have hsuf : SSL_PORT <:+ host ++ ':' :: SSL_PORT :=
      List.IsSuffix.trans (List.suffix_cons ':' SSL_PORT)
        (List.suffix_append host (':' :: SSL_PORT))
    unfold dialKind
    rw [if_pos ((goHasSuffix_iff _ _).mpr hsuf)]

/-! ## NickServ identification (`Identify`)

part_000 lines 110-116 and hatcogd/external.go lines 69-75 (the two
variants are character-for-character the same logic).  The connection
state this operation reads and writes is its `isIdentified` flag; the
raw lines handed to `SendRaw` are returned alongside the new state. -/

/-- The per-connection state `Identify` touches. -/
structure External where
  isIdentified : Bool
deriving DecidableEq

/-- `SendMessage(channel, msg)` builds `PRIVMSG <channel> :<msg>`
(part_000 lines 119-122). -/
def SendMessage (channel msg : Str) : Str :=
  "PRIVMSG ".toList ++ channel ++ " :".toList ++ msg

/-- `Identify(password)`: no-op when already identified, otherwise
send the NickServ identify message and set the flag. -/
def Identify (c : External) (password : Str) : External × List Str :=
  if c.isIdentified then (c, [])
  else ({ c with isIdentified := true },
        [SendMessage "NickServ".toList ("identify ".toList ++ password)])

/-- A sequence of `Identify` calls on one connection: the final state
and all raw lines sent along the way. -/
def identifySeq : External → List Str → External × List Str
  | c, [] => (c, [])
  | c, p :: ps =>
    let r := Identify c p
    let rest := identifySeq r.1 ps
    (rest.1, r.2 ++ rest.2)

theorem identifySeq_identified (c : External) (h : c.isIdentified = true) :
    ∀ ps : List Str, identifySeq c ps = (c, []) := by
  intro ps
  induction ps with
  | nil => rfl
  | cons p ps ih =>
    simp only [identifySeq]
    rw [show Identify c p = (c, []) from by unfold Identify; rw [if_pos h]]
    simp [ih]

/-- C6: on a not-yet-identified connection, any non-empty sequence of
`Identify` calls sends exactly one raw line,
`PRIVMSG NickServ :identify <first password>`, and sets the
`isIdentified` flag; every subsequent call sends nothing and leaves the
state unchanged (the flag is never reset). -/
theorem Identify_first_send_only (c : External) (p : Str) (ps : List Str)
    (h : c.isIdentified = false) :
    identifySeq c (p :: ps) =
      ({ c with isIdentified := true },
       ["PRIVMSG NickServ :identify ".toList ++ p]) := by
  have key : "PRIVMSG ".toList ++ "NickServ".toList ++ " :".toList ++
      ("identify ".toList ++ p) = "PRIVMSG NickServ :identify ".toList ++ p := by
    rw [← List.append_assoc]
    rw [(by decide : ("PRIVMSG ".toList ++ "NickServ".toList ++ " :".toList ++
      "identify ".toList : Str) = "PRIVMSG NickServ :identify ".toList)]
  have h1 : Identify c p = ({ c with isIdentified := true },
      ["PRIVMSG NickServ :identify ".toList ++ p]) := by
    unfold Identify SendMessage
    rw [if_neg (by simp [h]), key]
  simp only [identifySeq]
  rw [h1, identifySeq_identified _ rfl ps]
  rfl

/-- Witness for C6: a fresh connection, first password `pw`, one
further call with password `pw2`. -/
theorem Identify_first_send_only_witness :
    identifySeq ⟨false⟩ ("pw".toList :: ["pw2".toList]) =
      (⟨true⟩, ["PRIVMSG NickServ :identify ".toList ++ "pw".toList]) :=
  Identify_first_send_only ⟨false⟩ "pw".toList ["pw2".toList] rfl

/-! ## The connection manager (`ExternalManager`)

part_000 lines 26-66.  The Go map is modelled as
`Option (List (Str × External))`: `none` is a nil map (lookup yields
nil, `range` iterates zero times, but *insertion panics*), `some l` a
live map as an association list with unique keys.  `Connect` and
`Close` report their side effects (dialing, starting the reader task,
closing sockets) as a list of events. -/

/-- The observable side effects of manager operations. -/
inductive MEvent
  | dialed (addr : Str)
  | consumeStarted (addr : Str)
  | socketClosed (addr : Str)
deriving DecidableEq

/-- The manager state: its address → connection map. -/
structure ExternalManager where
  connections : Option (List (Str × External))
deriving DecidableEq

/-- `NewExternalManager` (line 31-33): a fresh, non-nil, empty map. -/
def NewExternalManager : ExternalManager := ⟨some []⟩

/-- Association-list lookup (the Go map read `m[k]`). -/
def assocLookup : List (Str × External) → Str → Option External
  | [], _ => none
  | (k, v) :: rest, a => if k = a then some v else assocLookup rest a

/-- `self.connections[addr]`: a read of a nil Go map yields nil. -/
def lookupConn (m : ExternalManager) (addr : Str) : Option External :=
  match m.connections with
  | none => none
  | some l => assocLookup l addr

/-- `Connect(addr)` (lines 35-42): if no Connection exists for `addr`,
dial one (`NewExternal`, a connection with a fresh unidentified state)
and start its `Consume` loop; otherwise do nothing.  Writing to a nil
map is a Go panic, modelled `none`. -/
def ExternalManager.Connect (m : ExternalManager) (addr : Str) :
    Option (ExternalManager × List MEvent) :=
  if (lookupConn m addr).isSome then some (m, [])
  else
    match m.connections with
    | none => none
    | some l =>
      some (⟨some ((addr, ⟨false⟩) :: l)⟩,
            [MEvent.dialed addr, MEvent.consumeStarted addr])

/-- `Close()` (lines 60-66): close every owned Connection's socket,
then set the map to nil.  Ranging over a nil map iterates zero times
and assigning nil cannot fault, so this is total. -/
def ExternalManager.Close (m : ExternalManager) : ExternalManager × List MEvent :=
  (⟨none⟩, (m.connections.getD []).map (fun p => MEvent.socketClosed p.1))

theorem assocLookup_isSome_iff (l : List (Str × External)) (a : Str) :
    (assocLookup l a).isSome = true ↔ a ∈ l.map Prod.fst := by
  induction l with
  | nil => simp [assocLookup]
  | cons kv rest ih =>
    obtain ⟨k, v⟩ := kv
    by_cases hk : k = a
    · subst hk
      simp only [assocLookup, if_true]
      constructor
      · intro _
        exact List.mem_cons_self k (rest.map Prod.fst)
      · intro _
        rfl
    · simp only [assocLookup, if_neg hk, List.map_cons, List.mem_cons, ih]
      constructor
      · exact Or.inr
      · rintro (h | h)
        · exact absurd h.symm hk
        · exact h

theorem count_eq_one_of_nodup_mem {a : Str} {keys : List Str}
    (hnd : keys.Nodup) (h : a ∈ keys) : List.count a keys = 1 := by
  induction keys with
  | nil => simp at h
  | cons k ks ih =>
    rw [List.nodup_cons] at hnd
    rcases List.mem_cons.mp h with h1 | h1
    · subst h1
      rw [List.count_cons_self, List.count_eq_zero_of_not_mem hnd.1]
    · have hne : a ≠ k := fun he => hnd.1 (he ▸ h1)
      rw [List.count_cons_of_ne hne, ih hnd.2 h1]

/-- C4: `Connect` is idempotent.  For a manager whose map is live (not
nil) with unique keys, the first `Connect(addr)` succeeds, a second
`Connect(addr)` is a no-op (same state, no dial, no new reader task),
and afterwards exactly one Connection exists for `addr`. -/
theorem Connect_idempotent (m : ExternalManager) (addr : Str)
    (l : List (Str × External)) (hm : m.connections = some l)
    (hnd : (l.map Prod.fst).Nodup) :
    ∃ m1 ev1, m.Connect addr = some (m1, ev1) ∧
      m1.Connect addr = some (m1, []) ∧
      ∃ l1, m1.connections = some l1 ∧
        List.count addr (l1.map Prod.fst) = 1 := by
  by_cases hl : (lookupConn m addr).isSome = true
  · refine ⟨m, [], ?_, ?_, l, hm, ?_⟩
    · unfold ExternalManager.Connect
      rw [if_pos hl]
    · unfold ExternalManager.Connect
      rw [if_pos hl]
    · have hmem : addr ∈ l.map Prod.fst := by
        have h2 := hl
        unfold lookupConn at h2
        rw [hm] at h2
        exact (assocLookup_isSome_iff l addr).mp h2
      exact count_eq_one_of_nodup_mem hnd hmem
  · have hnotmem : addr ∉ l.map Prod.fst := by
      intro hmem
      exact hl (by
        unfold lookupConn
        rw [hm]
        exact (assocLookup_isSome_iff l addr).mpr hmem)
    refine ⟨⟨some ((addr, ⟨false⟩) :: l)⟩,
      [MEvent.dialed addr, MEvent.consumeStarted addr], ?_, ?_,
      (addr, ⟨false⟩) :: l, rfl, ?_⟩
    · unfold ExternalManager.Connect
      rw [if_neg hl, hm]
    · unfold ExternalManager.Connect
      rw [if_pos (by simp [lookupConn, assocLookup])]
    · simp only [List.map_cons, List.count_cons_self,
        List.count_eq_zero_of_not_mem hnotmem]

/-- Witness for C4: connecting twice to `irc.example.com:6667` from a
fresh manager. -/
theorem Connect_idempotent_witness :
    ∃ m1 ev1,
      NewExternalManager.Connect "irc.example.com:6667".toList = some (m1, ev1) ∧
      m1.Connect "irc.example.com:6667".toList = some (m1, []) ∧
      ∃ l1, m1.connections = some l1 ∧
        List.count "irc.example.com:6667".toList (l1.map Prod.fst) = 1 :=
  Connect_idempotent NewExternalManager "irc.example.com:6667".toList [] rfl
    (by simp)

/-- C9: `Close` closes the socket of every Connection in the map and
clears the map (sets it to nil); calling it again on the result cannot
panic (it is a total function: ranging a nil map is a no-op) and
returns the already-cleared state unchanged, with no further events. -/
theorem Close_closes_all_idempotent (m : ExternalManager) :
    (∀ addr conn, lookupConn m addr = some conn →
        MEvent.socketClosed addr ∈ (m.Close).2) ∧
    (m.Close).1.connections = none ∧
    (m.Close).1.Close = ((m.Close).1, []) := by
  refine ⟨?_, rfl, rfl⟩
  intro addr conn h
  cases hc : m.connections with
  | none => simp [lookupConn, hc] at h
  | some l =>
    simp only [lookupConn, hc] at h
    have hmem : addr ∈ l.map Prod.fst :=
      (assocLookup_isSome_iff l addr).mp (by rw [h]; rfl)
    unfold ExternalManager.Close
    rw [hc]
    obtain ⟨p, hp, hpa⟩ := List.mem_map.mp hmem
    exact List.mem_map.mpr ⟨p, hp, by rw [hpa]⟩

/-- A one-connection manager used as the C9 witness input. -/
def mgrW : ExternalManager := ⟨some [("net".toList, ⟨false⟩)]⟩

/-- Witness for C9 on a manager owning one connection. -/
theorem Close_closes_all_idempotent_witness :
    MEvent.socketClosed "net".toList ∈ (mgrW.Close).2 ∧
    (mgrW.Close).1.connections = none ∧
    (mgrW.Close).1.Close = ((mgrW.Close).1, []) :=
  ⟨(Close_closes_all_idempotent mgrW).1 "net".toList ⟨false⟩ (by decide),
   (Close_closes_all_idempotent mgrW).2.1,
   (Close_closes_all_idempotent mgrW).2.2⟩

/-! ## The read loop (`Consume`)

part_000 lines 160-201 and hatcogd/external.go lines 111-142.  One
iteration of the loop is modelled as a function of the outcome of the
buffered read; the external parser `ParseLine` is a parameter.  The
part_000 loop distinguishes timeout (continue silently), `io.EOF` (log,
close the socket, return) and other errors (process-fatal); the hatcogd
loop only handles `net.Error` timeouts: on `io.EOF` its type assertion
`err.(net.Error)` yields a nil interface whose `Timeout()` call is a
nil dereference, i.e. a runtime panic (modelled `none`). -/

/-- The outcome of one `bufRead.ReadBytes` call (part_000). -/
inductive ReadResult
  | timeout
  | eof
  | otherError
  | ok (data : List Byte)
deriving DecidableEq

/-- What one part_000 loop iteration writes to the process log. -/
inductive LogMsg
  | serverClosed
  | invalidLine (content : List Nat)
deriving DecidableEq

/-- The observable effects of one part_000 loop iteration. -/
structure StepResult where
  sends : List Str
  forwarded : List Line
  rawLogged : List (List Nat)
  logged : List LogMsg
  closesSocket : Bool
  exitsLoop : Bool
  fatal : Bool
deriving DecidableEq

/-- One iteration of the part_000 `Consume` loop (lines 167-200). -/
def consumeStep (parseLine : List Nat → Option Line) (version : Str) :
    ReadResult → StepResult
  | ReadResult.timeout => ⟨[], [], [], [], false, false, false⟩
  | ReadResult.eof => ⟨[], [], [], [LogMsg.serverClosed], true, true, false⟩
  | ReadResult.otherError => ⟨[], [], [], [], false, true, true⟩
  | ReadResult.ok data =>
    if data.length = 0 then ⟨[], [], [], [], false, false, false⟩
    else
      let content := toUnicode data
      match parseLine content with
      | some line =>
        ⟨(act version line).1, (act version line).2, [content], [],
         false, false, false⟩
      | none => ⟨[], [], [content], [LogMsg.invalidLine content],
         false, false, false⟩

/-- The outcome of one `bufRead.ReadString` call (hatcogd). -/
inductive ReadResultH
  | timeout
  | eof
  | netError
  | ok (content : Str)
deriving DecidableEq

/-- The observable effects of one hatcogd loop iteration. -/
structure StepResultH where
  sends : List Str
  forwarded : List Line
  rawLogged : List Str
  invalidLogged : List Str
  exitsLoop : Bool
  fatal : Bool
deriving DecidableEq

/-- One iteration of the hatcogd `Consume` loop (external.go lines
114-141): `none` models the nil-interface `Timeout()` panic on a
non-`net.Error` read error such as `io.EOF`. -/
def consumeStepH (parseLine : Str → Option Line) (version : Str) :
    ReadResultH → Option StepResultH
  | ReadResultH.timeout => some ⟨[], [], [], [], false, false⟩
  | ReadResultH.eof => none
  | ReadResultH.netError => some ⟨[], [], [], [], true, true⟩
  | ReadResultH.ok content =>
    match parseLine content with
    | some line =>
      some ⟨(actH version line).1, (actH version line).2, [content], [],
            false, false⟩
    | none => some ⟨[], [], [content], [content], false, false⟩

/-- C7 counterexample: in the hatcogd read loop an end-of-stream read
does *not* close the socket and terminate the loop — the failed
`err.(net.Error)` assertion leaves a nil interface and the following
`netErr.Timeout()` call panics. -/
theorem consume_eof_cx :
    consumeStepH (fun _ => none) [] ReadResultH.eof = none := rfl

/-- C7 (amended): in the part_000 read loop a timed-out read forwards
no line, writes no raw-log or process-log entry, closes nothing and
continues, and an end-of-stream read logs the closure, closes the
socket and terminates the loop without forwarding a line.  The hatcogd
variant behaves the same on timeouts, but on end-of-stream it panics
(nil-interface dereference) instead of closing the socket. -/
theorem consume_timeout_eof_amended (parseLine : List Nat → Option Line)
    (version : Str) (parseLineH : Str → Option Line) (versionH : Str) :
    consumeStep parseLine version ReadResult.timeout =
      ⟨[], [], [], [], false, false, false⟩ ∧
    consumeStep parseLine version ReadResult.eof =
      ⟨[], [], [], [LogMsg.serverClosed], true, true, false⟩ ∧
    consumeStepH parseLineH versionH ReadResultH.timeout =
      some ⟨[], [], [], [], false, false⟩ ∧
    consumeStepH parseLineH versionH ReadResultH.eof = none :=
  ⟨rfl, rfl, rfl, rfl⟩
